import Mathlib

/-!
# The development proxy server `web/proxy.js`

`proxy.js` builds an Express application out of three middlewares, in this
order, and starts it on port 8080:

* line 8, `app.use(cors())`;
* lines 11-17, `app.use('/api', createProxyMiddleware(...))` with the target
  `http://127.0.0.1:8000`, `changeOrigin: true` and the rewrite table
  `'^/api' -> '/api'`;
* line 20, `app.use(express.static('./build/web'))`.

The program is an explicit function from a request and its environment (the
upstream's answers, the static directory) to an outcome: the response, the
middlewares that ran and the requests sent upstream.  What the three library
calls do with the options written in `proxy.js` follows the libraries
(`express`, `cors`, `http-proxy-middleware` over `http-proxy`, `serve-static`
over `send`, `finalhandler`); every definition names the library routine it
mirrors.

Header names are kept in lower case, the form in which Node stores them.

Request targets are modelled in origin form (they start with `/`).  Of what
Node's `url.parse` does to a target, the cut at a fragment and the turning of
backslashes into slashes are modelled; its escaping of characters, its trimming
of blanks and absolute-form targets are not.  The statements that depend on the
target are made for plain targets (`plainTarget`), on which none of this
applies.
-/

namespace BeachSafetyApp

/-! ## Requests, responses and headers -/

/-- Request methods. -/
inductive Method
  | GET | HEAD | POST | PUT | PATCH | DELETE | OPTIONS
  deriving DecidableEq, Repr

/-- Header table: name (lower case) and value, in insertion order. -/
abbrev Headers := List (String × String)

/-- Value of a header: `headers[name]`, `res.getHeader(name)`. -/
def getHeader (name : String) : Headers → Option String
  | [] => none
  | (k, v) :: rest => if k = name then some v else getHeader name rest

/-- Setting a header, `headers[name] = value` or `res.setHeader(name, value)`:
an existing entry is replaced in place, a new one is appended. -/
def setHeader (name value : String) : Headers → Headers
  | [] => [(name, value)]
  | (k, v) :: rest =>
    if k = name then (name, value) :: rest else (k, v) :: setHeader name value rest

/-- Deleting a header, `delete headers[name]`. -/
def removeHeader (name : String) (hs : Headers) : Headers :=
  hs.filter (fun kv => decide (kv.1 ≠ name))

/-- Protocol version of a request. -/
inductive HttpVersion
  | http10 | http11
  deriving DecidableEq, Repr

/-- An incoming request as Node hands it to the application. -/
structure Request where
  method : Method
  url : String
  headers : Headers
  httpVersion : HttpVersion
  deriving DecidableEq, Repr

/-- The request object a middleware sees: Express keeps the target as received
in `originalUrl` and rebases `url` while a layer mounted on a path runs. -/
structure ExpressReq where
  method : Method
  url : String
  originalUrl : String
  headers : Headers
  httpVersion : HttpVersion
  deriving DecidableEq, Repr

/-- Pages the libraries generate themselves; their text is not modelled. -/
inductive Page
  | notFound | redirect | proxyError
  deriving DecidableEq, Repr

/-- A response body: bytes taken from the upstream or from a file, or a
generated page. -/
inductive Body
  | text (s : String)
  | page (p : Page)
  deriving DecidableEq, Repr

/-- A response sent to the caller.  `headers` holds the headers set by the
middlewares before the response is produced and the headers relayed from the
upstream; the representation headers that `send` and `finalhandler` add to the
responses they generate (Content-Type, Content-Length, ETag, Location, ...) are
left out: those routines only add headers under their own names. -/
structure Response where
  status : Nat
  headers : Headers
  body : Body
  deriving DecidableEq, Repr

/-- The request that reaches the target: where it is sent, its method, its
target and its headers as written on the wire. -/
structure UpstreamRequest where
  target : String
  method : Method
  url : String
  headers : Headers
  deriving DecidableEq, Repr

/-- An answer of the upstream. -/
structure UpstreamResponse where
  status : Nat
  headers : Headers
  body : String
  deriving DecidableEq, Repr

/-- What lies under the static root at a path: a regular file, a directory or
nothing. -/
inductive Entry
  | file (content : String)
  | directory
  | absent
  deriving DecidableEq, Repr

/-- What `send` settles on for a request path: a file to send, a directory to
redirect to, or nothing to serve. -/
inductive Lookup
  | file (content : String)
  | directory
  | missing
  deriving DecidableEq, Repr

/-- The world around one request: the upstream's answer to a forwarded request
(an answer, or the error code of a failed exchange); the static directory
`./build/web`, as the entry found at a path written from the root
(`/index.html`, `/assets/app.js`); what `send` settles on for the paths whose
mapping to the directory is not modelled (`resolve`); and what `send` answers to
a request that carries precondition or range headers (status and body; it
depends on the file's date and entity tag). -/
structure Env where
  upstream : UpstreamRequest → Except String UpstreamResponse
  fs : String → Entry
  resolve : String → Lookup
  conditional : Headers → String → Nat × String

/-- Behaviour of the installed dependencies that `proxy.js` does not fix:
whether `http-proxy-middleware` restores `req.originalUrl` before it rewrites
and forwards (the 1.x and 2.x lines do, `req.url = req.originalUrl || req.url`;
3.x forwards the rebased `req.url`), and the status its default error handler
picks for an error code (no `onError` is configured). -/
structure Libs where
  restoresOriginalUrl : Bool
  errorStatus : String → Nat

/-! ## Strings and request targets -/

/-- Whether `s` starts with `pat`. -/
def startsWith : List Char → List Char → Bool
  | [], _ => true
  | _ :: _, [] => false
  | p :: ps, c :: cs => p == c && startsWith ps cs

/-- Whether `pat` occurs in `s`. -/
def occursIn (pat : List Char) : List Char → Bool
  | [] => startsWith pat []
  | c :: cs => startsWith pat (c :: cs) || occursIn pat cs

/-- The method `String.prototype.replace` with a literal pattern: the first
occurrence of `pat` is replaced by `rep`. -/
def replaceFirst (pat rep : List Char) : List Char → List Char
  | [] => if startsWith pat [] then rep else []
  | c :: cs =>
    if startsWith pat (c :: cs) then rep ++ (c :: cs).drop pat.length
    else c :: replaceFirst pat rep cs

/-- The backslash. -/
def backslash : Char := Char.ofNat 92

/-- The first step of Node's `url.parse`: backslashes become slashes up to the
first `?` or `#`. -/
def slashify : List Char → List Char
  | [] => []
  | c :: cs =>
    if c = '?' ∨ c = '#' then c :: cs
    else (if c = backslash then '/' else c) :: slashify cs

/-- The part of a target before its first `?`. -/
def beforeQuery (url : String) : String :=
  ⟨url.data.takeWhile (fun c => c != '?')⟩

/-- The rest of a target, from its first `?` on. -/
def fromQuery (url : String) : String :=
  ⟨url.data.dropWhile (fun c => c != '?')⟩

/-- The path of a request target, `parseurl(req).pathname`: the part before the
first `?`; a target that holds a `#` goes through `url.parse`, whose path also
stops at the `#`. -/
def pathname (url : String) : String :=
  if url.data.any (fun c => c == '#') then
    ⟨(slashify url.data).takeWhile (fun c => c != '?' && c != '#')⟩
  else beforeQuery url

/-- The `path` of a parsed target, `url.parse(req.url).path`: the target
without its fragment. -/
def urlParsePath (url : String) : String :=
  ⟨(slashify url.data).takeWhile (fun c => c != '#')⟩

/-- The characters of a plain target: letters, digits and the marks written
below. -/
def safeChar (c : Char) : Bool :=
  c.isAlphanum || "/?&=.-_~%+,;:!$*()".data.contains c

/-- A plain target: in origin form and made of letters, digits and
`/ ? & = . - _ ~ % + , ; : ! $ * ( )` only, so without fragment, backslash,
blank or any character that `url.parse` escapes. -/
def plainTarget (url : String) : Bool :=
  startsWith "/".data url.data && url.data.all safeChar

/-! ## The rewrite table (`pathRewrite`, lines 14-16) -/

/-- A compiled rewrite key.  `http-proxy-middleware` turns every key of the
table into a `RegExp`; the keys used here are an optional `^` followed by
literal characters. -/
structure Regex where
  anchored : Bool
  literal : List Char
  deriving DecidableEq, Repr

/-- Compiling a key: `new RegExp(key)`. -/
def compileRegex (key : String) : Regex :=
  match key.data with
  | '^' :: rest => ⟨true, rest⟩
  | cs => ⟨false, cs⟩

/-- The test `regex.test(path)`. -/
def Regex.test (r : Regex) (path : List Char) : Bool :=
  if r.anchored then startsWith r.literal path else occursIn r.literal path

/-- The replacement `path.replace(regex, value)`. -/
def Regex.replace (r : Regex) (value : List Char) (path : List Char) : List Char :=
  if r.anchored then
    (if startsWith r.literal path then value ++ path.drop r.literal.length else path)
  else replaceFirst r.literal value path

/-- The rewriter built from a table (`createPathRewriter`): the first rule
whose key matches rewrites the path, the others are not tried. -/
def rewritePath : List (String × String) → String → String
  | [], path => path
  | (key, value) :: rules, path =>
    if (compileRegex key).test path.data then
      ⟨(compileRegex key).replace value.data path.data⟩
    else rewritePath rules path

/-- The options handed to `createProxyMiddleware`. -/
structure ProxyOptions where
  target : String
  changeOrigin : Bool
  pathRewrite : List (String × String)
  deriving DecidableEq, Repr

/-- The options of lines 12-16. -/
def proxyOptions : ProxyOptions :=
  { target := "http://127.0.0.1:8000"
    changeOrigin := true
    pathRewrite := [("^/api", "/api")] }

/-- The configured rewrite. -/
def pathRewrite (path : String) : String :=
  rewritePath proxyOptions.pathRewrite path

/-! ## Forwarding (`http-proxy`, reached through `createProxyMiddleware`) -/

/-- A target without its scheme. -/
def afterScheme (target : String) : List Char :=
  if startsWith "http://".data target.data then target.data.drop 7
  else if startsWith "https://".data target.data then target.data.drop 8
  else target.data

/-- The `host` of the parsed target, port included: `url.parse(target).host`. -/
def targetHost (target : String) : String :=
  ⟨(afterScheme target).takeWhile (fun c => c != '/')⟩

/-- The `path` of the parsed target, `/` when the target names none:
`url.parse(target).path`. -/
def targetPath (target : String) : String :=
  match (afterScheme target).dropWhile (fun c => c != '/') with
  | [] => "/"
  | p => ⟨p⟩

/-- The replacement `.replace(/\/+/g, '/')`: every run of slashes becomes one
slash. -/
def collapseSlashes : List Char → List Char
  | [] => []
  | c :: rest =>
    if c = '/' ∧ rest.head? = some '/' then collapseSlashes rest
    else c :: collapseSlashes rest

/-- Joining with `/`: `Array.prototype.join('/')`. -/
def joinSlash : List (List Char) → List Char
  | [] => []
  | [a] => a
  | a :: b :: rest => a ++ '/' :: joinSlash (b :: rest)

/-- The routine `common.urlJoin(targetPath, outgoingPath)` of `http-proxy`: the
last argument is cut at its first `?`, the non-empty pieces are joined with `/`,
runs of slashes are collapsed, a collapsed `http://` or `https://` is restored,
and the query is put back. -/
def urlJoin (base last : String) : String :=
  let pieces := [base.data, (beforeQuery last).data].filter (fun s => !s.isEmpty)
  let joined := collapseSlashes (joinSlash pieces)
  let joined := replaceFirst "http:/".data "http://".data joined
  let joined := replaceFirst "https:/".data "https://".data joined
  ⟨joined ++ (fromQuery last).data⟩

/-- Cutting a list at every `sep`. -/
def splitOnChar (sep : Char) : List Char → List (List Char)
  | [] => [[]]
  | c :: cs =>
    match splitOnChar sep cs with
    | [] => [[]]
    | seg :: segs => if c = sep then [] :: seg :: segs else (c :: seg) :: segs

/-- The characters `\s` of a JavaScript regular expression matches: the white
space and line terminators of ECMAScript. -/
def isJsSpace (c : Char) : Bool :=
  [9, 10, 11, 12, 13, 32, 160, 5760, 8232, 8233, 8239, 8287, 12288, 65279].contains
      c.toNat ||
    (8192 ≤ c.toNat && c.toNat ≤ 8202)

/-- A token without the `\s` characters around it, in lower case. -/
def normToken (cs : List Char) : List Char :=
  (((cs.dropWhile isJsSpace).reverse.dropWhile isJsSpace).reverse).map Char.toLower

/-- The test `/(^|,)\s*upgrade\s*($|,)/i` of `http-proxy` on a `Connection`
value: one of its comma-separated tokens is `upgrade`. -/
def isUpgrade (value : String) : Bool :=
  (splitOnChar ',' value.data).any (fun t => normToken t == "upgrade".data)

/-- The pass `deleteLength` of `http-proxy`: a `DELETE` or `OPTIONS` request
without `Content-Length` gets `Content-Length: 0` and loses
`Transfer-Encoding`. -/
def deleteLength (method : Method) (hs : Headers) : Headers :=
  if (method = Method.DELETE ∨ method = Method.OPTIONS) ∧
      (getHeader "content-length" hs).getD "" = "" then
    removeHeader "transfer-encoding" (setHeader "content-length" "0" hs)
  else hs

/-- The copy `extend({}, req.headers)` of `http-proxy` (`util._extend`): the
names are visited from the last to the first. -/
def extend (target add : Headers) : Headers :=
  add.foldr (fun kv acc => setHeader kv.1 kv.2 acc) target

/-- The header object of the outgoing request (`common.setupOutgoing`): a copy
of the incoming headers; without an agent, `Connection` becomes `close` unless
it asks for an upgrade; with `changeOrigin`, `Host` becomes the target's
host. -/
def outgoingObject (opts : ProxyOptions) (method : Method) (hs : Headers) : Headers :=
  let hs := extend [] (deleteLength method hs)
  let hs :=
    match getHeader "connection" hs with
    | some v => if isUpgrade v then hs else setHeader "connection" "close" hs
    | none => setHeader "connection" "close" hs
  if opts.changeOrigin then setHeader "host" (targetHost opts.target) hs else hs

/-- What Node's client adds when it writes the request (`_storeHeader`): a
request of a method that may carry a body (`POST`, `PUT`, `PATCH`), with
neither `Content-Length` nor `Transfer-Encoding`, ends without a body and is
written with `Content-Length: 0`. -/
def storeHeader (method : Method) (hs : Headers) : Headers :=
  if (method = Method.POST ∨ method = Method.PUT ∨ method = Method.PATCH) ∧
      getHeader "content-length" hs = none ∧ getHeader "transfer-encoding" hs = none then
    setHeader "content-length" "0" hs
  else hs

/-- The headers of the outgoing request as the upstream receives them. -/
def outgoingHeaders (opts : ProxyOptions) (method : Method) (hs : Headers) : Headers :=
  storeHeader method (outgoingObject opts method hs)

/-- The outgoing request (`common.setupOutgoing`): its path is the target's
path joined with the `path` of the parsed request target. -/
def setupOutgoing (opts : ProxyOptions) (method : Method) (url : String)
    (hs : Headers) : UpstreamRequest :=
  { target := opts.target
    method := method
    url := urlJoin (targetPath opts.target) (urlParsePath url)
    headers := outgoingHeaders opts method hs }

/-- A header list as the object Node makes of it: for a name written twice the
first entry stands. -/
def objectOfAux (seen : List String) : Headers → Headers
  | [] => []
  | (k, v) :: rest =>
    if k ∈ seen then objectOfAux seen rest else (k, v) :: objectOfAux (k :: seen) rest

/-- The header object of a list. -/
def objectOf (hs : Headers) : Headers := objectOfAux [] hs

/-- The headers of a relayed response (`web-outgoing`): `removeChunked` drops
the upstream's `Transfer-Encoding` for an HTTP/1.0 caller; `setConnection` sets
the upstream's `Connection` to the caller's (or `close`) for an HTTP/1.0 caller,
and otherwise gives it the caller's (or `keep-alive`) when the upstream sent
none; then `writeHeaders` sets every upstream header on the response, which
replaces a header of the same name set earlier. -/
def writeHeaders (version : HttpVersion) (reqHeaders upstream : Headers)
    (res : Headers) : Headers :=
  let upstream :=
    if version = HttpVersion.http10 then removeHeader "transfer-encoding" upstream
    else upstream
  let own := (getHeader "connection" reqHeaders).getD ""
  let upstream :=
    if version = HttpVersion.http10 then
      setHeader "connection" (if own = "" then "close" else own) upstream
    else if (getHeader "connection" upstream).getD "" = "" then
      setHeader "connection" (if own = "" then "keep-alive" else own) upstream
    else upstream
  (objectOf upstream).foldl (fun acc kv => setHeader kv.1 kv.2 acc) res

/-! ## The middlewares -/

/-- The middlewares of the application. -/
inductive Stage
  | cors | proxy | static
  deriving DecidableEq, Repr

/-- What a middleware does with a request: it ends the response (and may have
sent requests upstream), or it calls `next()` with the headers set so far. -/
inductive Result
  | ended (response : Response) (calls : List UpstreamRequest)
  | next (res : Headers)

/-- Appending a field to `Vary` (the package `vary`). -/
def vary (field : String) (res : Headers) : Headers :=
  match getHeader "vary" res with
  | some v =>
    if v = "" then setHeader "vary" field res else setHeader "vary" (v ++ ", " ++ field) res
  | none => setHeader "vary" field res

/-- The headers `cors()` puts on the answer to a pre-flight request, with its
defaults (`origin: '*'`, `methods: 'GET,HEAD,PUT,PATCH,POST,DELETE'`, the
requested headers echoed). -/
def preflightHeaders (reqHeaders res : Headers) : Headers :=
  let res := setHeader "access-control-allow-origin" "*" res
  let res := setHeader "access-control-allow-methods" "GET,HEAD,PUT,PATCH,POST,DELETE" res
  let res := vary "Access-Control-Request-Headers" res
  let res :=
    match getHeader "access-control-request-headers" reqHeaders with
    | some v => if v = "" then res else setHeader "access-control-allow-headers" v res
    | none => res
  setHeader "content-length" "0" res

/-- The middleware `cors()` with its defaults (`preflightContinue: false`,
`optionsSuccessStatus: 204`): an `OPTIONS` request is answered here, with an
empty 204; any other request gets `Access-Control-Allow-Origin: *` and goes
on. -/
def cors (req : ExpressReq) (res : Headers) : Result :=
  if req.method = Method.OPTIONS then
    Result.ended
      { status := 204, headers := preflightHeaders req.headers res, body := Body.text "" } []
  else Result.next (setHeader "access-control-allow-origin" "*" res)

/-- The middleware `createProxyMiddleware(opts)`: the request target is
rewritten by the table and the request is sent to the target, once; the
upstream's status and body are written to the caller with the upstream's
headers; a failed exchange is answered by the default error handler, which
writes its status and a message. -/
def createProxyMiddleware (opts : ProxyOptions) (libs : Libs) (env : Env)
    (req : ExpressReq) (res : Headers) : Result :=
  let url := if libs.restoresOriginalUrl then req.originalUrl else req.url
  let out := setupOutgoing opts req.method (rewritePath opts.pathRewrite url) req.headers
  match env.upstream out with
  | Except.ok r =>
    Result.ended
      { status := r.status
        headers := writeHeaders req.httpVersion req.headers r.headers res
        body := Body.text r.body } [out]
  | Except.error code =>
    Result.ended
      { status := libs.errorStatus code
        headers := res
        body := Body.page Page.proxyError } [out]

/-- Whether a request carries a precondition or a range. -/
def hasPrecondition (hs : Headers) : Bool :=
  ["if-match", "if-unmodified-since", "if-none-match", "if-modified-since", "range"].any
    (fun n => (getHeader n hs).isSome)

/-- The characters of a path that `send` maps to the directory as it is
written: those of a plain target without `%` (no decoding) and `?`. -/
def fileChar (c : Char) : Bool :=
  c.isAlphanum || "/&=.-_~+,;:!$*()".data.contains c

/-- A path that `send` maps to the directory as it is written: it starts with
`/`, needs no decoding, has no empty segment to normalise away and no segment
that starts with `.` (neither a dotfile nor a step out of the root). -/
def simplePath (path : String) : Bool :=
  startsWith "/".data path.data && path.data.all fileChar &&
    !occursIn "//".data path.data && !occursIn "/.".data path.data

/-- Whether a path ends in `/` (`hasTrailingSlash`). -/
def hasTrailingSlash (path : String) : Bool :=
  path.data.getLast? == some '/'

/-- The place `send` looks at for a path: the path itself, or the `index.html`
below it when the path ends in `/`. -/
def staticKey (path : String) : String :=
  if hasTrailingSlash path then ⟨path.data ++ "index.html".data⟩ else path

/-- What `send` settles on for a path (`pipe`, `sendFile`, `sendIndex`): for a
path it maps to the directory as written, a regular file at its place is sent, a
directory named without its slash is redirected to, and anything else is not
served; for the other paths the answer is the environment's. -/
def sendLookup (env : Env) (path : String) : Lookup :=
  if simplePath path then
    match env.fs (staticKey path) with
    | Entry.file content => Lookup.file content
    | Entry.directory => if hasTrailingSlash path then Lookup.missing else Lookup.directory
    | Entry.absent => Lookup.missing
  else env.resolve path

/-- The middleware `express.static(root)` with its defaults
(`fallthrough: true`, `redirect: true`, `index: 'index.html'`): only `GET` and
`HEAD` are served, any other method goes on; a file is sent with 200 (headers
only for `HEAD`), a directory named without its slash is redirected, and what
is not found goes on. -/
def expressStatic (env : Env) (req : ExpressReq) (res : Headers) : Result :=
  if req.method ≠ Method.GET ∧ req.method ≠ Method.HEAD then Result.next res
  else
    match sendLookup env (pathname req.url) with
    | Lookup.missing => Result.next res
    | Lookup.directory =>
      Result.ended { status := 301, headers := res, body := Body.page Page.redirect } []
    | Lookup.file content =>
      let answer :=
        if hasPrecondition req.headers then env.conditional req.headers content
        else (200, content)
      Result.ended
        { status := answer.1
          headers := res
          body := Body.text (if req.method = Method.HEAD then "" else answer.2) } []

/-- The end of the stack (`finalhandler`): no middleware answered. -/
def finalhandler (res : Headers) : Response :=
  { status := 404, headers := res, body := Body.page Page.notFound }

/-! ## Express: mounting and the middleware stack -/

/-- The match of a layer mounted with `app.use(mount, ...)` against a request
path.  Express compiles the mount path with `end: false`, `strict: false` and
without case sensitivity, `/^\/api\/?(?=\/|$)/i` for `/api`: the path must
continue with `/` or stop after the mount path.  The result is the matched
text. -/
def matchMount (mount path : String) : Option String :=
  let n := mount.data.length
  if (path.data.take n).map Char.toLower = mount.data.map Char.toLower then
    match path.data.drop n with
    | [] => some ⟨path.data.take n⟩
    | '/' :: [] => some ⟨path.data.take (n + 1)⟩
    | '/' :: '/' :: _ => some ⟨path.data.take (n + 1)⟩
    | '/' :: _ => some ⟨path.data.take n⟩
    | _ => none
  else none

/-- The target a mounted layer sees: the matched text is cut off and a leading
slash is ensured (`trim_prefix`). -/
def rebase (matched url : String) : String :=
  match url.data.drop matched.length with
  | '/' :: rest => ⟨'/' :: rest⟩
  | rest => ⟨'/' :: rest⟩

/-- A layer of the stack: a middleware, mounted on a path or on every path. -/
structure Layer where
  stage : Stage
  mount : Option String
  handler : ExpressReq → Headers → Result

/-- The request a layer sees, when the layer matches the request at all. -/
def Layer.enter (l : Layer) (req : Request) : Option ExpressReq :=
  match l.mount with
  | none => some ⟨req.method, req.url, req.url, req.headers, req.httpVersion⟩
  | some m =>
    match matchMount m (pathname req.url) with
    | none => none
    | some matched =>
      some ⟨req.method, rebase matched req.url, req.url, req.headers, req.httpVersion⟩

/-- What the server did with a request: the response, the middlewares that ran
(in order) and the requests sent to the upstream (in order). -/
structure Outcome where
  response : Response
  visited : List Stage
  upstreamCalls : List UpstreamRequest
  deriving DecidableEq, Repr

/-- The walk of the stack (`router.handle`): the layers are tried in the order
of their registration; a layer that does not match is skipped, one that ends
the response stops the walk, one that calls `next()` hands over to the rest;
past the last layer `finalhandler` answers. -/
def runLayers (req : Request) : List Layer → Headers → List Stage → Outcome
  | [], res, seen => ⟨finalhandler res, seen, []⟩
  | l :: ls, res, seen =>
    match l.enter req with
    | none => runLayers req ls res seen
    | some ereq =>
      match l.handler ereq res with
      | Result.ended response calls => ⟨response, seen ++ [l.stage], calls⟩
      | Result.next res1 => runLayers req ls res1 (seen ++ [l.stage])

/-! ## The application (`proxy.js`) -/

/-- The process-wide configuration: the proxy options, the static root and
the port. -/
structure Server where
  proxy : ProxyOptions
  staticRoot : String
  port : Nat
  deriving DecidableEq, Repr

/-- Line 23, `const PORT = 8080`. -/
def PORT : Nat := 8080

/-- The server `proxy.js` configures. -/
def server : Server :=
  { proxy := proxyOptions, staticRoot := "./build/web", port := PORT }

/-- Lines 8-20: the stack, in the order of the three `app.use` calls. -/
def app (srv : Server) (libs : Libs) (env : Env) : List Layer :=
  [ ⟨Stage.cors, none, cors⟩,
    ⟨Stage.proxy, some "/api", createProxyMiddleware srv.proxy libs env⟩,
    ⟨Stage.static, none, expressStatic env⟩ ]

/-- Handling one request: Express sets `X-Powered-By` and walks the stack.  The
configuration is handed back as it was received: no handler writes to it. -/
def serve (srv : Server) (libs : Libs) (env : Env) (req : Request) : Server × Outcome :=
  (srv, runLayers req (app srv libs env) [("x-powered-by", "Express")] [])

/-- The outcome of one request on the configured server. -/
def handle (libs : Libs) (env : Env) (req : Request) : Outcome :=
  (serve server libs env req).2

/-- Whether the `/api` layer matches the request. -/
def mountMatches (req : Request) : Bool :=
  (matchMount "/api" (pathname req.url)).isSome

/-- The paths the `/api` layer takes, spelled out: the first four characters
are `/api` in any letter case, and nothing or a `/` follows them. -/
def underApi (path : String) : Bool :=
  decide ((path.data.take 4).map Char.toLower = "/api".data) &&
    (decide (path.data.drop 4 = []) || decide ((path.data.drop 4).head? = some '/'))

/-- A path that `urlJoin` leaves as it is: no run of slashes, no `http:/` and
no `https:/`. -/
def plainPath (path : String) : Bool :=
  !occursIn "//".data path.data && !occursIn "http:/".data path.data &&
    !occursIn "https:/".data path.data

/-- The headers on the response when the layers after `cors` run. -/
def afterCors : Headers :=
  [("x-powered-by", "Express"), ("access-control-allow-origin", "*")]

/-! ## Sample environments -/

/-- Dependencies of the 2.x line, with the usual gateway status. -/
def sampleLibs : Libs :=
  { restoresOriginalUrl := true, errorStatus := fun _ => 504 }

/-- An upstream that answers every request with `200 pong`, and a static
directory holding `index.html` and the directory `assets`. -/
def sampleEnv : Env :=
  { upstream := fun _ => Except.ok ⟨200, [("content-type", "text/plain")], "pong"⟩
    fs := fun p =>
      if p = "/index.html" then Entry.file "<html></html>"
      else if p = "/assets" then Entry.directory
      else Entry.absent
    resolve := fun _ => Lookup.missing
    conditional := fun _ content => (200, content) }

/-- An upstream that sets its own cross-origin header on its answers. -/
def ownOriginEnv : Env :=
  { upstream := fun _ =>
      Except.ok ⟨200, [("access-control-allow-origin", "https://app.example")], "pong"⟩
    fs := fun _ => Entry.absent
    resolve := fun _ => Lookup.missing
    conditional := fun _ content => (200, content) }

/-! ## Sample requests -/

/-- The pre-flight request `OPTIONS /api/ping`. -/
def optionsPing : Request :=
  ⟨Method.OPTIONS, "/api/ping", [], HttpVersion.http11⟩

/-- The request `GET /apifoo`. -/
def getApifoo : Request :=
  ⟨Method.GET, "/apifoo", [], HttpVersion.http11⟩

/-- The request `POST /index.html`. -/
def postIndex : Request :=
  ⟨Method.POST, "/index.html", [], HttpVersion.http11⟩

/-- The request `GET /index.html`. -/
def getIndex : Request :=
  ⟨Method.GET, "/index.html", [], HttpVersion.http11⟩

/-- The request `GET /api/ping`. -/
def getPing : Request :=
  ⟨Method.GET, "/api/ping", [], HttpVersion.http11⟩

/-- The request `GET /api/ping` with `Host: localhost:8080` and
`Connection: keep-alive`. -/
def getPingKeepAlive : Request :=
  ⟨Method.GET, "/api/ping",
    [("host", "localhost:8080"), ("connection", "keep-alive")], HttpVersion.http11⟩

/-- The request `GET /api/ping?x=1`. -/
def getPingQuery : Request :=
  ⟨Method.GET, "/api/ping?x=1", [], HttpVersion.http11⟩

/-! ## Lemmas on strings, targets and headers -/

theorem startsWith_append_drop (pat s : List Char) (h : startsWith pat s = true) :
    pat ++ s.drop pat.length = s := by
  induction pat generalizing s with
  | nil => simp
  | cons p ps ih =>
    cases s with
    | nil => simp [startsWith] at h
    | cons c cs =>
      simp only [startsWith, Bool.and_eq_true, beq_iff_eq] at h
      obtain ⟨hpc, hrest⟩ := h
      simp [hpc, ih cs hrest]

theorem rewritePath_configured (path : String) :
    rewritePath proxyOptions.pathRewrite path = path := by
  have hk : compileRegex "^/api" = ⟨true, "/api".data⟩ := rfl
  show rewritePath [("^/api", "/api")] path = path
  simp only [rewritePath, hk, Regex.test, Regex.replace, if_true]
  split
  · next h =>
      have := startsWith_append_drop "/api".data path.data h
      rw [this]
  · rfl

theorem getHeader_setHeader_self (name value : String) (hs : Headers) :
    getHeader name (setHeader name value hs) = some value := by
  induction hs with
  | nil => simp [setHeader, getHeader]
  | cons kv rest ih =>
    obtain ⟨k, v⟩ := kv
    by_cases hk : k = name
    · simp [setHeader, getHeader, hk]
    · simp [setHeader, getHeader, hk, ih]

theorem getHeader_setHeader_ne (name other value : String) (hs : Headers)
    (h : other ≠ name) :
    getHeader name (setHeader other value hs) = getHeader name hs := by
  induction hs with
  | nil => simp [setHeader, getHeader, h]
  | cons kv rest ih =>
    obtain ⟨k, v⟩ := kv
    by_cases hk : k = other
    · subst hk
      simp [setHeader, getHeader, h]
    · by_cases hn : k = name
      · subst hn
        simp [setHeader, getHeader, hk]
      · simp [setHeader, getHeader, hk, hn, ih]

theorem getHeader_removeHeader_ne (name other : String) (hs : Headers)
    (h : other ≠ name) :
    getHeader name (removeHeader other hs) = getHeader name hs := by
  induction hs with
  | nil => simp [removeHeader, getHeader]
  | cons kv rest ih =>
    obtain ⟨k, v⟩ := kv
    have hcons : removeHeader other ((k, v) :: rest) =
        if k = other then removeHeader other rest else (k, v) :: removeHeader other rest := by
      by_cases hk : k = other <;> simp [removeHeader, List.filter, hk]
    rw [hcons]
    by_cases hk : k = other
    · subst hk
      simp [getHeader, h, ih]
    · simp [getHeader, hk, ih]

theorem getHeader_extend (name : String) (hs : Headers) :
    getHeader name (extend [] hs) = getHeader name hs := by
  induction hs with
  | nil => rfl
  | cons kv rest ih =>
    obtain ⟨k, v⟩ := kv
    show getHeader name (setHeader k v (extend [] rest)) = getHeader name ((k, v) :: rest)
    by_cases hk : k = name
    · subst hk
      simp [getHeader_setHeader_self, getHeader]
    · rw [getHeader_setHeader_ne name k v _ hk, ih]
      simp [getHeader, hk]

theorem getHeader_foldl_objectOfAux (name : String) (hs : Headers) :
    ∀ (seen : List String) (res : Headers),
      getHeader name
          ((objectOfAux seen hs).foldl (fun acc kv => setHeader kv.1 kv.2 acc) res) =
        if name ∈ seen then getHeader name res
        else (getHeader name hs).orElse (fun _ => getHeader name res) := by
  induction hs with
  | nil =>
    intro seen res
    simp [objectOfAux, getHeader]
  | cons kv rest ih =>
    intro seen res
    obtain ⟨k, v⟩ := kv
    by_cases hks : k ∈ seen
    · simp only [objectOfAux, hks, if_true]
      rw [ih seen res]
      by_cases hns : name ∈ seen
      · simp [hns]
      · have hkn : k ≠ name := fun h => hns (h ▸ hks)
        simp [hns, getHeader, hkn]
    · simp only [objectOfAux, hks, if_false, List.foldl_cons]
      rw [ih (k :: seen) (setHeader k v res)]
      by_cases hkn : k = name
      · subst hkn
        simp [hks, getHeader_setHeader_self, getHeader]
      · have hne : name ≠ k := fun h => hkn h.symm
        rw [getHeader_setHeader_ne name k v res hkn]
        by_cases hns : name ∈ seen
        · simp [hns, hne]
        · simp [hns, hne, getHeader, hkn]

theorem getHeader_foldl_objectOf (name : String) (hs res : Headers) :
    getHeader name ((objectOf hs).foldl (fun acc kv => setHeader kv.1 kv.2 acc) res) =
      (getHeader name hs).orElse (fun _ => getHeader name res) := by
  have h := getHeader_foldl_objectOfAux name hs [] res
  simpa [objectOf] using h

theorem collapseSlashes_eq_self (s : List Char) (h : occursIn "//".data s = false) :
    collapseSlashes s = s := by
  induction s with
  | nil => rfl
  | cons c rest ih =>
    simp only [occursIn, Bool.or_eq_false_iff] at h
    obtain ⟨h1, h2⟩ := h
    have hno : ¬ (c = '/' ∧ rest.head? = some '/') := by
      rintro ⟨hc, hr⟩
      cases rest with
      | nil => simp at hr
      | cons d rest2 =>
        simp only [List.head?_cons, Option.some.injEq] at hr
        subst hc
        subst hr
        simp [startsWith] at h1
    simp only [collapseSlashes, hno, if_false, ih h2]

theorem collapseSlashes_slash_slash (l : List Char) :
    collapseSlashes ('/' :: '/' :: l) = collapseSlashes ('/' :: l) := by
  conv_lhs => rw [collapseSlashes]
  simp

theorem replaceFirst_eq_self (pat rep s : List Char) (h : occursIn pat s = false) :
    replaceFirst pat rep s = s := by
  induction s with
  | nil =>
    simp only [occursIn] at h
    simp [replaceFirst, h]
  | cons c rest ih =>
    simp only [occursIn, Bool.or_eq_false_iff] at h
    simp [replaceFirst, h.1, ih h.2]

theorem safeChar_ne_hash (c : Char) (h : safeChar c = true) : c ≠ '#' := by
  rintro rfl
  revert h
  decide

theorem safeChar_ne_backslash (c : Char) (h : safeChar c = true) : c ≠ backslash := by
  rintro rfl
  revert h
  decide

theorem any_hash_of_safe (cs : List Char) (h : cs.all safeChar = true) :
    cs.any (fun c => c == '#') = false := by
  induction cs with
  | nil => rfl
  | cons c rest ih =>
    simp only [List.all_cons, Bool.and_eq_true] at h
    simp [List.any_cons, safeChar_ne_hash c h.1, ih h.2]

theorem slashify_of_safe (cs : List Char) (h : cs.all safeChar = true) :
    slashify cs = cs := by
  induction cs with
  | nil => rfl
  | cons c rest ih =>
    simp only [List.all_cons, Bool.and_eq_true] at h
    unfold slashify
    split
    · rfl
    · rw [if_neg (safeChar_ne_backslash c h.1), ih h.2]

theorem takeWhile_hash_of_safe (cs : List Char) (h : cs.all safeChar = true) :
    cs.takeWhile (fun c => c != '#') = cs := by
  induction cs with
  | nil => rfl
  | cons c rest ih =>
    simp only [List.all_cons, Bool.and_eq_true] at h
    have hne : (c != '#') = true := by simp [safeChar_ne_hash c h.1]
    rw [List.takeWhile_cons, hne, if_pos rfl, ih h.2]

theorem plainTarget_safe (url : String) (h : plainTarget url = true) :
    url.data.all safeChar = true := by
  simp only [plainTarget, Bool.and_eq_true] at h
  exact h.2

theorem pathname_plain (url : String) (h : plainTarget url = true) :
    pathname url = beforeQuery url := by
  unfold pathname
  rw [any_hash_of_safe url.data (plainTarget_safe url h)]
  rfl

theorem urlParsePath_plain (url : String) (h : plainTarget url = true) :
    urlParsePath url = url := by
  unfold urlParsePath
  rw [slashify_of_safe url.data (plainTarget_safe url h),
    takeWhile_hash_of_safe url.data (plainTarget_safe url h)]

theorem matchMount_isSome (p : String) : (matchMount "/api" p).isSome = underApi p := by
  unfold matchMount underApi
  have hlen : "/api".data.length = 4 := rfl
  have hlow : "/api".data.map Char.toLower = "/api".data := by decide
  rw [hlen, hlow]
  by_cases h : (p.data.take 4).map Char.toLower = "/api".data
  · rw [if_pos h, decide_eq_true h, Bool.true_and]
    generalize p.data.drop 4 = d
    rcases d with _ | ⟨c, _ | ⟨c2, rest⟩⟩
    · rfl
    · by_cases hc : c = '/'
      · subst hc
        rfl
      · simp [hc]
    · by_cases hc : c = '/'
      · subst hc
        by_cases hc2 : c2 = '/'
        · subst hc2
          rfl
        · simp [hc2]
      · simp [hc]
  · rw [if_neg h, decide_eq_false h]
    rfl

theorem underApi_of_startsWith (url : String)
    (h : startsWith "/api/".data url.data = true) : underApi (beforeQuery url) = true := by
  have hsplit := startsWith_append_drop "/api/".data url.data h
  have hd : "/api/".data = ['/', 'a', 'p', 'i', '/'] := rfl
  rw [hd] at hsplit
  unfold underApi beforeQuery
  rw [← hsplit]
  simp [List.takeWhile]

theorem beforeQuery_append_fromQuery (url : String) :
    (beforeQuery url).data ++ (fromQuery url).data = url.data := by
  simp [beforeQuery, fromQuery, List.takeWhile_append_dropWhile]

theorem urlJoin_root (url : String) (hs : startsWith "/".data url.data = true)
    (hp : plainPath (beforeQuery url) = true) : urlJoin "/" url = url := by
  simp only [plainPath, Bool.and_eq_true, Bool.not_eq_true'] at hp
  obtain ⟨⟨h1, h2⟩, h3⟩ := hp
  have hsplit := startsWith_append_drop "/".data url.data hs
  have hpath : ∃ rest, (beforeQuery url).data = '/' :: rest := by
    have hd : "/".data = ['/'] := rfl
    rw [hd] at hsplit
    unfold beforeQuery
    rw [← hsplit]
    simp [List.takeWhile]
  obtain ⟨rest, hrest⟩ := hpath
  have hjoin : collapseSlashes (joinSlash
      ([("/" : String).data, (beforeQuery url).data].filter (fun s => !s.isEmpty))) =
      (beforeQuery url).data := by
    have hd : ("/" : String).data = ['/'] := rfl
    rw [hd, hrest]
    simp only [List.filter, List.isEmpty, Bool.not_false, joinSlash, List.singleton_append]
    have hc := collapseSlashes_eq_self ('/' :: rest) (hrest ▸ h1)
    rw [collapseSlashes_slash_slash, collapseSlashes_slash_slash]
    exact hc
  unfold urlJoin
  simp only [hjoin, replaceFirst_eq_self _ _ _ h2, replaceFirst_eq_self _ _ _ h3,
    beforeQuery_append_fromQuery]

theorem handle_options (libs : Libs) (env : Env) (req : Request)
    (h : req.method = Method.OPTIONS) :
    handle libs env req =
      ⟨⟨204, preflightHeaders req.headers [("x-powered-by", "Express")], Body.text ""⟩,
        [Stage.cors], []⟩ := by
  simp only [handle, serve, app, runLayers, Layer.enter, cors, h, if_true]
  rfl

theorem preflightHeaders_allowOrigin (reqHeaders : Headers) :
    getHeader "access-control-allow-origin"
      (preflightHeaders reqHeaders [("x-powered-by", "Express")]) = some "*" := by
  simp only [preflightHeaders, vary, getHeader, setHeader]
  split
  · split <;>
      simp (disch := decide) [getHeader_setHeader_ne, getHeader_setHeader_self, getHeader,
        setHeader]
  · simp (disch := decide) [getHeader_setHeader_ne, getHeader_setHeader_self, getHeader,
      setHeader]

theorem handle_proxied_at (libs : Libs) (env : Env) (req : Request) (m : String)
    (hm : req.method ≠ Method.OPTIONS)
    (hmatch : matchMount "/api" (pathname req.url) = some m) :
    handle libs env req =
      match env.upstream (setupOutgoing proxyOptions req.method
        (rewritePath proxyOptions.pathRewrite
          (if libs.restoresOriginalUrl then req.url else rebase m req.url)) req.headers) with
      | Except.ok r =>
        ⟨⟨r.status, writeHeaders req.httpVersion req.headers r.headers afterCors,
            Body.text r.body⟩,
          [Stage.cors, Stage.proxy],
          [setupOutgoing proxyOptions req.method
            (rewritePath proxyOptions.pathRewrite
              (if libs.restoresOriginalUrl then req.url else rebase m req.url)) req.headers]⟩
      | Except.error code =>
        ⟨⟨libs.errorStatus code, afterCors, Body.page Page.proxyError⟩,
          [Stage.cors, Stage.proxy],
          [setupOutgoing proxyOptions req.method
            (rewritePath proxyOptions.pathRewrite
              (if libs.restoresOriginalUrl then req.url else rebase m req.url)) req.headers]⟩ := by
  simp only [handle, serve, app, runLayers, Layer.enter, cors, hm, if_false, hmatch,
    createProxyMiddleware, server]
  cases hup : env.upstream (setupOutgoing proxyOptions req.method
      (rewritePath proxyOptions.pathRewrite
        (if libs.restoresOriginalUrl then req.url else rebase m req.url)) req.headers) <;>
    simp [hup, afterCors, setHeader]

theorem handle_proxied (libs : Libs) (env : Env) (req : Request)
    (hm : req.method ≠ Method.OPTIONS) (hu : underApi (pathname req.url) = true) :
    ∃ url, (libs.restoresOriginalUrl = true → url = req.url) ∧
      handle libs env req =
        match env.upstream (setupOutgoing proxyOptions req.method
          (rewritePath proxyOptions.pathRewrite url) req.headers) with
        | Except.ok r =>
          ⟨⟨r.status, writeHeaders req.httpVersion req.headers r.headers afterCors,
              Body.text r.body⟩,
            [Stage.cors, Stage.proxy],
            [setupOutgoing proxyOptions req.method
              (rewritePath proxyOptions.pathRewrite url) req.headers]⟩
        | Except.error code =>
          ⟨⟨libs.errorStatus code, afterCors, Body.page Page.proxyError⟩,
            [Stage.cors, Stage.proxy],
            [setupOutgoing proxyOptions req.method
              (rewritePath proxyOptions.pathRewrite url) req.headers]⟩ := by
  have hsome : (matchMount "/api" (pathname req.url)).isSome = true := by
    rw [matchMount_isSome, hu]
  obtain ⟨m, hmatch⟩ := Option.isSome_iff_exists.mp hsome
  refine ⟨if libs.restoresOriginalUrl then req.url else rebase m req.url, ?_,
    handle_proxied_at libs env req m hm hmatch⟩
  intro hv
  simp [hv]

theorem handle_static (libs : Libs) (env : Env) (req : Request)
    (hm : req.method ≠ Method.OPTIONS) (hu : underApi (pathname req.url) = false) :
    handle libs env req =
      match expressStatic env ⟨req.method, req.url, req.url, req.headers, req.httpVersion⟩
        afterCors with
      | Result.ended r calls => ⟨r, [Stage.cors, Stage.static], calls⟩
      | Result.next res => ⟨finalhandler res, [Stage.cors, Stage.static], []⟩ := by
  have hnone : matchMount "/api" (pathname req.url) = none := by
    have h := matchMount_isSome (pathname req.url)
    rw [hu] at h
    cases hmm : matchMount "/api" (pathname req.url) with
    | none => rfl
    | some m => simp [hmm] at h
  simp only [handle, serve, app, runLayers, Layer.enter, cors, hm, if_false, hnone]
  have hs : setHeader "access-control-allow-origin" "*" [("x-powered-by", "Express")] =
      afterCors := by decide
  rw [hs]
  cases expressStatic env ⟨req.method, req.url, req.url, req.headers, req.httpVersion⟩
    afterCors <;> rfl

theorem expressStatic_ended (env : Env) (req : ExpressReq) (res : Headers)
    (r : Response) (calls : List UpstreamRequest)
    (h : expressStatic env req res = Result.ended r calls) :
    calls = [] ∧ r.headers = res := by
  unfold expressStatic at h
  split at h
  · cases h
  · split at h <;> cases h <;> exact ⟨rfl, rfl⟩

theorem expressStatic_next (env : Env) (req : ExpressReq) (res res1 : Headers)
    (h : expressStatic env req res = Result.next res1) : res1 = res := by
  unfold expressStatic at h
  split at h
  · cases h
    rfl
  · split at h <;> cases h
    rfl

theorem mem_upstreamCalls (libs : Libs) (env : Env) (req : Request) (out : UpstreamRequest)
    (h : out ∈ (handle libs env req).upstreamCalls) :
    req.method ≠ Method.OPTIONS ∧ underApi (pathname req.url) = true ∧
      ∃ url, (libs.restoresOriginalUrl = true → url = req.url) ∧
        out = setupOutgoing proxyOptions req.method
          (rewritePath proxyOptions.pathRewrite url) req.headers := by
  by_cases hm : req.method = Method.OPTIONS
  · rw [handle_options libs env req hm] at h
    simp at h
  · cases hu : underApi (pathname req.url) with
    | true =>
      obtain ⟨url, hurl, hh⟩ := handle_proxied libs env req hm hu
      rw [hh] at h
      refine ⟨hm, rfl, url, hurl, ?_⟩
      cases hup : env.upstream (setupOutgoing proxyOptions req.method
        (rewritePath proxyOptions.pathRewrite url) req.headers) <;>
        simpa [hup] using h
    | false =>
      rw [handle_static libs env req hm hu] at h
      cases hst : expressStatic env
          ⟨req.method, req.url, req.url, req.headers, req.httpVersion⟩ afterCors with
      | next res => simp [hst] at h
      | ended r calls =>
        have hcalls : calls = [] := (expressStatic_ended env _ _ r calls hst).1
        simp [hst, hcalls] at h

theorem deleteLength_other (method : Method) (hs : Headers) (name : String)
    (h1 : name ≠ "content-length") (h2 : name ≠ "transfer-encoding") :
    getHeader name (deleteLength method hs) = getHeader name hs := by
  unfold deleteLength
  split
  · rw [getHeader_removeHeader_ne _ _ _ (Ne.symm h2),
      getHeader_setHeader_ne _ _ _ _ (Ne.symm h1)]
  · rfl

theorem deleteLength_of_length (method : Method) (hs : Headers)
    (h : (getHeader "content-length" hs).getD "" ≠ "") : deleteLength method hs = hs := by
  unfold deleteLength
  rw [if_neg]
  rintro ⟨-, hlen⟩
  exact h hlen

theorem outgoingObject_host (method : Method) (hs : Headers) :
    getHeader "host" (outgoingObject proxyOptions method hs) = some "127.0.0.1:8000" := by
  have ht : targetHost proxyOptions.target = "127.0.0.1:8000" := by decide
  have hc : proxyOptions.changeOrigin = true := rfl
  simp only [outgoingObject, hc, if_true, ht]
  exact getHeader_setHeader_self _ _ _

theorem outgoingObject_connection (method : Method) (hs : Headers) :
    getHeader "connection" (outgoingObject proxyOptions method hs) =
      match getHeader "connection" (deleteLength method hs) with
      | some v => if isUpgrade v then some v else some "close"
      | none => some "close" := by
  have hc : proxyOptions.changeOrigin = true := rfl
  simp only [outgoingObject, hc, if_true]
  rw [getHeader_setHeader_ne _ _ _ _ (by decide), getHeader_extend]
  cases hv : getHeader "connection" (deleteLength method hs) with
  | none => exact getHeader_setHeader_self _ _ _
  | some v =>
    by_cases hup : isUpgrade v = true
    · simp only [hup, if_true]
      rw [getHeader_extend, hv]
    · simp only [hup, Bool.false_eq_true, if_false]
      exact getHeader_setHeader_self _ _ _

theorem outgoingObject_other (method : Method) (hs : Headers) (name : String)
    (h1 : name ≠ "host") (h2 : name ≠ "connection") :
    getHeader name (outgoingObject proxyOptions method hs) =
      getHeader name (deleteLength method hs) := by
  have hc : proxyOptions.changeOrigin = true := rfl
  simp only [outgoingObject, hc, if_true]
  rw [getHeader_setHeader_ne _ _ _ _ (Ne.symm h1)]
  cases hv : getHeader "connection" (extend [] (deleteLength method hs)) with
  | none =>
    simp only []
    rw [getHeader_setHeader_ne _ _ _ _ (Ne.symm h2), getHeader_extend]
  | some v =>
    by_cases hup : isUpgrade v = true
    · simp only [hup, if_true]
      rw [getHeader_extend]
    · simp only [hup, Bool.false_eq_true, if_false]
      rw [getHeader_setHeader_ne _ _ _ _ (Ne.symm h2), getHeader_extend]

theorem storeHeader_other (method : Method) (hs : Headers) (name : String)
    (h : name ≠ "content-length") :
    getHeader name (storeHeader method hs) = getHeader name hs := by
  unfold storeHeader
  split
  · rw [getHeader_setHeader_ne _ _ _ _ (Ne.symm h)]
  · rfl

theorem storeHeader_of_length (method : Method) (hs : Headers) (v : String)
    (h : getHeader "content-length" hs = some v) : storeHeader method hs = hs := by
  unfold storeHeader
  rw [if_neg]
  rintro ⟨-, hlen, -⟩
  rw [h] at hlen
  cases hlen

theorem writeHeaders_allowOrigin (version : HttpVersion) (reqHeaders upstream res : Headers) :
    getHeader "access-control-allow-origin" (writeHeaders version reqHeaders upstream res) =
      (getHeader "access-control-allow-origin" upstream).orElse
        (fun _ => getHeader "access-control-allow-origin" res) := by
  unfold writeHeaders
  rw [getHeader_foldl_objectOf]
  congr 1
  by_cases hv : version = HttpVersion.http10
  · simp only [hv, if_true]
    rw [getHeader_setHeader_ne _ _ _ _ (by decide),
      getHeader_removeHeader_ne _ _ _ (by decide)]
  · simp only [hv, if_false]
    split
    · rw [getHeader_setHeader_ne _ _ _ _ (by decide)]
    · rfl

theorem setupOutgoing_configured (method : Method) (url : String) (hs : Headers)
    (hplain : plainTarget url = true)
    (hpath : plainPath (beforeQuery url) = true) :
    setupOutgoing proxyOptions method (rewritePath proxyOptions.pathRewrite url) hs =
      ⟨"http://127.0.0.1:8000", method, url, outgoingHeaders proxyOptions method hs⟩ := by
  have hroot : targetPath proxyOptions.target = "/" := by decide
  have hslash : startsWith "/".data url.data = true := by
    simp only [plainTarget, Bool.and_eq_true] at hplain
    exact hplain.1
  rw [rewritePath_configured]
  simp only [setupOutgoing, hroot, urlParsePath_plain url hplain,
    urlJoin_root url hslash hpath]
  rfl

/-! ## The rewrite table -/

/-- Claim C6: The configured path rewrite (a match of `^/api` replaced by `/api`)
is the identity: every path, starting with `/api` or not, is rewritten to
itself, and so rewriting is idempotent. -/
theorem pathRewrite_identity (p : String) :
    pathRewrite p = p ∧ pathRewrite (pathRewrite p) = pathRewrite p := by
  have h : ∀ q, pathRewrite q = q := fun q => rewritePath_configured q
  exact ⟨h p, by rw [h p, h p]⟩

/-! ## Pre-flight requests -/

/-- Claim C10: Every `OPTIONS` request, on any path, is answered by the CORS
middleware itself: no other middleware runs (neither the proxy nor the static
handler), nothing is sent to the upstream, and the response is an empty 204
carrying `Access-Control-Allow-Origin: *`. -/
theorem preflight_answered_by_cors (libs : Libs) (env : Env) (req : Request)
    (h : req.method = Method.OPTIONS) :
    (handle libs env req).visited = [Stage.cors] ∧
      (handle libs env req).upstreamCalls = [] ∧
      (handle libs env req).response.status = 204 ∧
      (handle libs env req).response.body = Body.text "" ∧
      getHeader "access-control-allow-origin" (handle libs env req).response.headers =
        some "*" := by
  rw [handle_options libs env req h]
  exact ⟨rfl, rfl, rfl, rfl, preflightHeaders_allowOrigin req.headers⟩

/-- Witness of C10: the pre-flight request `OPTIONS /api/ping`. -/
theorem preflight_answered_by_cors_witness :
    (handle sampleLibs sampleEnv optionsPing).visited = [Stage.cors] ∧
      (handle sampleLibs sampleEnv optionsPing).upstreamCalls = [] ∧
      (handle sampleLibs sampleEnv optionsPing).response.status = 204 ∧
      (handle sampleLibs sampleEnv optionsPing).response.body = Body.text "" ∧
      getHeader "access-control-allow-origin"
        (handle sampleLibs sampleEnv optionsPing).response.headers = some "*" :=
  preflight_answered_by_cors sampleLibs sampleEnv optionsPing rfl

/-! ## Routing -/

/-- Claim C2 as stated fails: `GET /apifoo` has a path that starts with `/api`,
yet the `/api` layer does not take it: nothing is sent to the upstream and the
static handler runs. -/
theorem routing_by_string_start_fails :
    ¬ ∀ (libs : Libs) (env : Env) (req : Request),
        ((handle libs env req).upstreamCalls ≠ [] ↔
          startsWith "/api".data (pathname req.url).data = true) ∧
        (Stage.static ∈ (handle libs env req).visited ↔
          startsWith "/api".data (pathname req.url).data = false) := by
  intro h
  have h1 := (h sampleLibs sampleEnv getApifoo).1
  revert h1
  decide

/-- Claim C2, amended: The middlewares run in the order CORS, API proxy, static
files.  For a request with a plain target: it is forwarded to the upstream if
and only if it is not an `OPTIONS` request and its path (the target up to the
first `?`) is taken by the `/api` mount, that is, consists of `/api` in any
letter case followed by nothing or by `/`; it is handed to the static handler if
and only if it is not an `OPTIONS` request and its path is not taken by the
mount.  So a forwarded request never reaches the static handler and a request
handed to the static handler never reaches the upstream. -/
theorem routing_by_mount (libs : Libs) (env : Env) (req : Request)
    (hplain : plainTarget req.url = true) :
    ((handle libs env req).upstreamCalls ≠ [] ↔
        (req.method ≠ Method.OPTIONS ∧ underApi (beforeQuery req.url) = true)) ∧
      (Stage.static ∈ (handle libs env req).visited ↔
        (req.method ≠ Method.OPTIONS ∧ underApi (beforeQuery req.url) = false)) ∧
      ((handle libs env req).visited = [Stage.cors] ∨
        (handle libs env req).visited = [Stage.cors, Stage.proxy] ∨
        (handle libs env req).visited = [Stage.cors, Stage.static]) ∧
      ((handle libs env req).upstreamCalls ≠ [] →
        Stage.static ∉ (handle libs env req).visited) := by
  rw [← pathname_plain req.url hplain]
  by_cases hm : req.method = Method.OPTIONS
  · rw [handle_options libs env req hm]
    simp [hm]
  · cases hu : underApi (pathname req.url) with
    | true =>
      obtain ⟨url, -, hh⟩ := handle_proxied libs env req hm hu
      rw [hh]
      cases env.upstream (setupOutgoing proxyOptions req.method
        (rewritePath proxyOptions.pathRewrite url) req.headers) <;> simp [hm]
    | false =>
      rw [handle_static libs env req hm hu]
      cases hst : expressStatic env
          ⟨req.method, req.url, req.url, req.headers, req.httpVersion⟩ afterCors with
      | next res => simp [hm]
      | ended r calls =>
        have hcalls : calls = [] := (expressStatic_ended env _ _ r calls hst).1
        simp [hm, hcalls]

/-- Witness of C2: `GET /apifoo` is handed to the static handler. -/
theorem routing_by_mount_witness :
    Stage.static ∈ (handle sampleLibs sampleEnv getApifoo).visited :=
  (routing_by_mount sampleLibs sampleEnv getApifoo (by decide)).2.1.mpr
    ⟨by decide, by decide⟩

/-! ## Static files -/

/-- Claim C3 as stated fails: `POST /index.html`, with `index.html` present in
the static directory and a path that does not start with `/api`, is answered
404, not 200 with the file. -/
theorem static_any_method_fails :
    ¬ ∀ (libs : Libs) (env : Env) (req : Request),
        startsWith "/api".data (pathname req.url).data = false →
        (∀ content, env.fs (pathname req.url) = Entry.file content →
          (handle libs env req).response.status = 200 ∧
            (handle libs env req).response.body = Body.text content) ∧
        ((∀ content, env.fs (pathname req.url) ≠ Entry.file content) →
          (handle libs env req).response.status = 404) := by
  intro h
  have h1 := ((h sampleLibs sampleEnv postIndex (by decide)).1
    "<html></html>" (by decide)).1
  revert h1
  decide

/-- Claim C3, amended: For every request with a plain target whose path is not
taken by the `/api` mount, has no empty segment, no segment that starts with `.`
and no `%`: a `GET` request that carries no precondition and no range is
answered 200 with exactly the contents of the file when a regular file exists
at the corresponding place under `./build/web` (the path itself, or the
`index.html` below it when the path ends in `/`); a request of any method other
than `OPTIONS` is answered 404 when nothing exists at that place. -/
theorem static_get_served (libs : Libs) (env : Env) (req : Request)
    (hplain : plainTarget req.url = true)
    (hu : underApi (beforeQuery req.url) = false)
    (hsimple : simplePath (beforeQuery req.url) = true) :
    (∀ content, req.method = Method.GET → hasPrecondition req.headers = false →
        env.fs (staticKey (beforeQuery req.url)) = Entry.file content →
        (handle libs env req).response.status = 200 ∧
          (handle libs env req).response.body = Body.text content) ∧
      (req.method ≠ Method.OPTIONS →
        env.fs (staticKey (beforeQuery req.url)) = Entry.absent →
        (handle libs env req).response.status = 404) := by
  have hp := pathname_plain req.url hplain
  rw [← hp] at hu hsimple
  rw [← hp]
  constructor
  · intro content hget hpre hfile
    have hm : req.method ≠ Method.OPTIONS := by rw [hget]; decide
    rw [handle_static libs env req hm hu]
    simp [expressStatic, sendLookup, hsimple, hget, hpre, hfile]
  · intro hm habsent
    rw [handle_static libs env req hm hu]
    have hst : expressStatic env
        ⟨req.method, req.url, req.url, req.headers, req.httpVersion⟩ afterCors =
        Result.next afterCors := by
      simp only [expressStatic, sendLookup, hsimple, habsent, if_true]
      split <;> rfl
    rw [hst]
    rfl

/-- Witness of C3: `GET /index.html` with the file present. -/
theorem static_get_served_witness :
    (handle sampleLibs sampleEnv getIndex).response.status = 200 ∧
      (handle sampleLibs sampleEnv getIndex).response.body = Body.text "<html></html>" :=
  (static_get_served sampleLibs sampleEnv getIndex (by decide) (by decide) (by decide)).1
    "<html></html>" rfl (by decide) (by decide)

/-! ## Cross-origin headers -/

/-- Claim C4 as stated fails: when the upstream answers `GET /api/ping` with its
own `Access-Control-Allow-Origin: https://app.example`, the relayed response
carries that value, not `*`. -/
theorem allow_origin_star_fails :
    ¬ ∀ (libs : Libs) (env : Env) (req : Request),
        getHeader "access-control-allow-origin" (handle libs env req).response.headers =
          some "*" := by
  intro h
  have h1 := h sampleLibs ownOriginEnv getPing
  revert h1
  decide

/-- Claim C4, amended: Every response the server sends (a pre-flight answer, a
relayed upstream response, a gateway error, a served file, a redirect, a
not-found response) carries an `Access-Control-Allow-Origin` header.  For a
request with a plain target its value is `*` when nothing was forwarded and when
the forwarding failed; when an upstream answer is relayed, it is the value the
upstream set for this header, and `*` when the upstream set none. -/
theorem allow_origin_present (libs : Libs) (env : Env) (req : Request) :
    (getHeader "access-control-allow-origin"
        (handle libs env req).response.headers).isSome = true ∧
      (plainTarget req.url = true →
        ((handle libs env req).upstreamCalls = [] →
          getHeader "access-control-allow-origin" (handle libs env req).response.headers =
            some "*") ∧
        (∀ out code, out ∈ (handle libs env req).upstreamCalls →
          env.upstream out = Except.error code →
          getHeader "access-control-allow-origin" (handle libs env req).response.headers =
            some "*") ∧
        (∀ out r, out ∈ (handle libs env req).upstreamCalls →
          env.upstream out = Except.ok r →
          getHeader "access-control-allow-origin" (handle libs env req).response.headers =
            some ((getHeader "access-control-allow-origin" r.headers).getD "*"))) := by
  have hbase : getHeader "access-control-allow-origin" afterCors = some "*" := by decide
  by_cases hm : req.method = Method.OPTIONS
  · rw [handle_options libs env req hm]
    simp [preflightHeaders_allowOrigin]
  · cases hu : underApi (pathname req.url) with
    | true =>
      obtain ⟨url, -, hh⟩ := handle_proxied libs env req hm hu
      rw [hh]
      cases hup : env.upstream (setupOutgoing proxyOptions req.method
        (rewritePath proxyOptions.pathRewrite url) req.headers) with
      | error code =>
        refine ⟨by simp [hbase], fun _ => ⟨fun _ => hbase, fun _ _ _ _ => hbase, ?_⟩⟩
        intro out r hout hr
        rw [List.mem_singleton.mp hout, hup] at hr
        cases hr
      | ok r =>
        have hval : getHeader "access-control-allow-origin"
            (writeHeaders req.httpVersion req.headers r.headers afterCors) =
            some ((getHeader "access-control-allow-origin" r.headers).getD "*") := by
          rw [writeHeaders_allowOrigin, hbase]
          cases getHeader "access-control-allow-origin" r.headers <;> rfl
        refine ⟨by simp [hval], fun _ => ⟨fun hnil => by simp at hnil, ?_, ?_⟩⟩
        · intro out code hout hr
          rw [List.mem_singleton.mp hout, hup] at hr
          cases hr
        · intro out r2 hout hr
          rw [List.mem_singleton.mp hout, hup] at hr
          cases hr
          exact hval
    | false =>
      rw [handle_static libs env req hm hu]
      cases hst : expressStatic env
          ⟨req.method, req.url, req.url, req.headers, req.httpVersion⟩ afterCors with
      | next res =>
        rw [expressStatic_next env _ _ res hst]
        refine ⟨by simp [finalhandler, hbase], fun _ => ⟨fun _ => hbase, ?_, ?_⟩⟩
        · intro out code hout
          simp at hout
        · intro out r hout
          simp at hout
      | ended r calls =>
        obtain ⟨hcalls, hres⟩ := expressStatic_ended env _ _ r calls hst
        subst hcalls
        have hr : getHeader "access-control-allow-origin" r.headers = some "*" := by
          rw [hres]
          exact hbase
        refine ⟨by simp [hr], fun _ => ⟨fun _ => hr, ?_, ?_⟩⟩
        · intro out code hout
          simp at hout
        · intro out r2 hout
          simp at hout

/-- Witness of C4: `GET /api/ping` relayed from an upstream that sets its own
cross-origin header. -/
theorem allow_origin_present_witness :
    getHeader "access-control-allow-origin"
      (handle sampleLibs ownOriginEnv getPing).response.headers =
        some "https://app.example" :=
  ((allow_origin_present sampleLibs ownOriginEnv getPing).2 (by decide)).2.2
    ⟨"http://127.0.0.1:8000", Method.GET, "/api/ping",
      [("connection", "close"), ("host", "127.0.0.1:8000")]⟩
    ⟨200, [("access-control-allow-origin", "https://app.example")], "pong"⟩
    (by decide) rfl

/-! ## Request headers sent upstream -/

/-- Claim C8 as stated fails: `GET /api/ping` with `Connection: keep-alive` is
forwarded with `Connection: close`, so a header other than `Host` is changed. -/
theorem other_headers_unchanged_fails :
    ¬ ∀ (libs : Libs) (env : Env) (req : Request) (out : UpstreamRequest),
        out ∈ (handle libs env req).upstreamCalls →
        getHeader "host" out.headers = some "127.0.0.1:8000" ∧
          ∀ name, name ≠ "host" → getHeader name out.headers = getHeader name req.headers := by
  intro h
  have h1 := (h sampleLibs sampleEnv getPingKeepAlive
    ⟨"http://127.0.0.1:8000", Method.GET, "/api/ping",
      [("connection", "close"), ("host", "127.0.0.1:8000")]⟩ (by decide)).2
    "connection" (by decide)
  revert h1
  decide

/-- Claim C8, amended: For every request forwarded to the upstream, the outbound
`Host` header is `127.0.0.1:8000` whatever `Host` the incoming request carried;
the outbound `Connection` header is `close` unless the incoming one asks for an
upgrade, in which case it is forwarded as it is; every incoming header other
than `Host`, `Connection`, `Content-Length` and `Transfer-Encoding` is forwarded
unchanged; and `Content-Length` and `Transfer-Encoding` are forwarded unchanged
when the incoming request carries a `Content-Length`. -/
theorem outgoing_request_headers (libs : Libs) (env : Env) (req : Request)
    (out : UpstreamRequest) (h : out ∈ (handle libs env req).upstreamCalls) :
    getHeader "host" out.headers = some "127.0.0.1:8000" ∧
      ((∀ v, getHeader "connection" req.headers = some v → isUpgrade v = false) →
        getHeader "connection" out.headers = some "close") ∧
      (∀ v, getHeader "connection" req.headers = some v → isUpgrade v = true →
        getHeader "connection" out.headers = some v) ∧
      (∀ name, name ≠ "host" → name ≠ "connection" → name ≠ "content-length" →
        name ≠ "transfer-encoding" →
        getHeader name out.headers = getHeader name req.headers) ∧
      (∀ v, getHeader "content-length" req.headers = some v → v ≠ "" →
        getHeader "content-length" out.headers = some v ∧
          getHeader "transfer-encoding" out.headers =
            getHeader "transfer-encoding" req.headers) := by
  obtain ⟨-, -, url, -, hout⟩ := mem_upstreamCalls libs env req out h
  have hhs : out.headers =
      storeHeader req.method (outgoingObject proxyOptions req.method req.headers) := by
    rw [hout]
    rfl
  have hconn : getHeader "connection" (deleteLength req.method req.headers) =
      getHeader "connection" req.headers :=
    deleteLength_other req.method req.headers "connection" (by decide) (by decide)
  rw [hhs]
  refine ⟨?_, ?_, ?_, ?_, ?_⟩
  · rw [storeHeader_other _ _ _ (by decide)]
    exact outgoingObject_host _ _
  · intro hno
    rw [storeHeader_other _ _ _ (by decide), outgoingObject_connection, hconn]
    cases hv : getHeader "connection" req.headers with
    | none => rfl
    | some v => simp [hno v hv]
  · intro v hv hup
    rw [storeHeader_other _ _ _ (by decide), outgoingObject_connection, hconn, hv]
    simp [hup]
  · intro name h1 h2 h3 h4
    rw [storeHeader_other _ _ _ h3, outgoingObject_other _ _ _ h1 h2,
      deleteLength_other _ _ _ h3 h4]
  · intro v hv hne
    have hkeep : deleteLength req.method req.headers = req.headers :=
      deleteLength_of_length _ _ (by rw [hv]; exact hne)
    have hlen : getHeader "content-length"
        (outgoingObject proxyOptions req.method req.headers) = some v := by
      rw [outgoingObject_other _ _ _ (by decide) (by decide), hkeep, hv]
    rw [storeHeader_of_length _ _ v hlen]
    refine ⟨hlen, ?_⟩
    rw [outgoingObject_other _ _ _ (by decide) (by decide), hkeep]

/-- Witness of C8: `GET /api/ping` with `Host: localhost:8080` and
`Connection: keep-alive`. -/
theorem outgoing_request_headers_witness :
    (⟨"http://127.0.0.1:8000", Method.GET, "/api/ping",
        [("connection", "close"), ("host", "127.0.0.1:8000")]⟩ : UpstreamRequest) ∈
      (handle sampleLibs sampleEnv getPingKeepAlive).upstreamCalls ∧
    getHeader "host" [("connection", "close"), ("host", "127.0.0.1:8000")] =
      some "127.0.0.1:8000" :=
  ⟨by decide,
    (outgoing_request_headers sampleLibs sampleEnv getPingKeepAlive
      ⟨"http://127.0.0.1:8000", Method.GET, "/api/ping",
        [("connection", "close"), ("host", "127.0.0.1:8000")]⟩ (by decide)).1⟩

/-! ## Forwarding to the upstream -/

/-- Claim C1 as stated fails: `OPTIONS /api/ping` is a request under `/api/`,
yet nothing is sent to the upstream and the caller gets the 204 of the CORS
middleware, not the upstream's `200 pong`. -/
theorem relay_any_method_fails :
    ¬ ∀ (libs : Libs) (env : Env) (req : Request) (up : UpstreamResponse),
        startsWith "/api/".data req.url.data = true →
        (∀ out, env.upstream out = Except.ok up) →
        (handle libs env req).upstreamCalls.map (fun out => out.url) = [req.url] ∧
          (handle libs env req).response.status = up.status ∧
          (handle libs env req).response.body = Body.text up.body := by
  intro h
  have h1 := (h sampleLibs sampleEnv optionsPing
    ⟨200, [("content-type", "text/plain")], "pong"⟩ (by decide) (fun _ => rfl)).2.1
  revert h1
  decide

/-- Claim C1, amended: For every request other than `OPTIONS` whose target is
plain, starts with `/api/` and holds no `//`, no `http:/` and no `https:/` in
its path, with an `http-proxy-middleware` that restores the original target
before it forwards, and for every answer the upstream gives to what is
forwarded: exactly one request is sent, to `http://127.0.0.1:8000`; it carries
the method and exactly the target (path and query) of the incoming request; and
the status code and body returned to the caller are exactly the upstream's. -/
theorem api_request_relayed (libs : Libs) (env : Env) (req : Request)
    (up : UpstreamResponse)
    (hm : req.method ≠ Method.OPTIONS)
    (hplain : plainTarget req.url = true)
    (hstart : startsWith "/api/".data req.url.data = true)
    (hpath : plainPath (beforeQuery req.url) = true)
    (hlib : libs.restoresOriginalUrl = true)
    (hup : ∀ out, out ∈ (handle libs env req).upstreamCalls →
      env.upstream out = Except.ok up) :
    (∃ out, (handle libs env req).upstreamCalls = [out] ∧
        out.target = "http://127.0.0.1:8000" ∧ out.method = req.method ∧
        out.url = req.url) ∧
      (handle libs env req).response.status = up.status ∧
      (handle libs env req).response.body = Body.text up.body := by
  have hu : underApi (pathname req.url) = true := by
    rw [pathname_plain req.url hplain]
    exact underApi_of_startsWith req.url hstart
  obtain ⟨url, hurl, hh⟩ := handle_proxied libs env req hm hu
  rw [hurl hlib, setupOutgoing_configured req.method req.url req.headers hplain hpath] at hh
  have hmem : (⟨"http://127.0.0.1:8000", req.method, req.url,
      outgoingHeaders proxyOptions req.method req.headers⟩ : UpstreamRequest) ∈
      (handle libs env req).upstreamCalls := by
    rw [hh]
    cases env.upstream ⟨"http://127.0.0.1:8000", req.method, req.url,
      outgoingHeaders proxyOptions req.method req.headers⟩ <;> simp
  rw [hup _ hmem] at hh
  rw [hh]
  exact ⟨⟨_, rfl, rfl, rfl, rfl⟩, rfl, rfl⟩

/-- Witness of C1: `GET /api/ping?x=1` against an upstream answering
`200 pong`. -/
theorem api_request_relayed_witness :
    (∃ out, (handle sampleLibs sampleEnv getPingQuery).upstreamCalls = [out] ∧
        out.target = "http://127.0.0.1:8000" ∧ out.method = Method.GET ∧
        out.url = "/api/ping?x=1") ∧
      (handle sampleLibs sampleEnv getPingQuery).response.status = 200 ∧
      (handle sampleLibs sampleEnv getPingQuery).response.body = Body.text "pong" :=
  api_request_relayed sampleLibs sampleEnv getPingQuery
    ⟨200, [("content-type", "text/plain")], "pong"⟩ (by decide) (by decide) (by decide)
    (by decide) rfl (fun _ _ => rfl)

/-- The other line of the library: with an `http-proxy-middleware` that forwards
the rebased target (3.x), `GET /api/ping?x=1` reaches the upstream as
`/ping?x=1`; the rewrite key `^/api` then finds nothing to match. -/
theorem rebased_target_forwarded :
    (handle ⟨false, fun _ => 504⟩ sampleEnv getPingQuery).upstreamCalls.map
      (fun out => out.url) = ["/ping?x=1"] := by
  decide

end BeachSafetyApp
